import Mathlib

/-!
Verification of the early-bird news-aggregation core: the Article record and
its dedup fingerprint, the Deduplicator with its persisted fingerprint cache,
and the relevance Scorer/Filter.  Strings are modelled as lists of characters,
Python `float` arithmetic as exact rational arithmetic, and timestamps as
rational numbers of seconds.
-/

/-- Strings are modelled as lists of characters. -/
abbrev Str := List Char

/-- Python `str.lower()` (ASCII-relevant part). -/
def pyLower (s : Str) : Str := s.map Char.toLower

/-- Characters stripped by Python `str.strip()`. -/
def isPySpace (c : Char) : Bool :=
  c = ' ' || c = '\t' || c = '\n' || c = '\x0d' || c = '\x0b' || c = '\x0c'

/-- Python `str.strip()`: remove leading and trailing whitespace. -/
def pyStrip (s : Str) : Str :=
  ((s.dropWhile isPySpace).reverse.dropWhile isPySpace).reverse

/-- The title normalization `title.lower().strip()` used by both the
fingerprint and the similarity check. -/
def normalizeTitle (s : Str) : Str := pyStrip (pyLower s)

/-- The Article record of `src/models/article.py`.  `published_at` is a
timestamp in seconds (None ↦ `none`); `hash` is the dedup fingerprint field. -/
structure Article where
  title : Str
  description : Option Str := none
  url : Str
  published_at : Option ℚ := none
  source : Str
  category : Str
  image_url : Option Str := none
  hash : Str := []
  relevance_score : ℚ := 0
  deriving DecidableEq, Repr, Inhabited

/-- Embedding of `Article.generate_hash`: digest of `title.lower().strip()` concatenated
with the raw URL.  `md5` stands for the (deterministic) digest function. -/
def generate_hash (md5 : Str → Str) (a : Article) : Str :=
  md5 (normalizeTitle a.title ++ a.url)

/-- Embedding of `Article.model_post_init`: populate `hash` when it was not provided. -/
def model_post_init (md5 : Str → Str) (a : Article) : Article :=
  if a.hash = [] then { a with hash := generate_hash md5 a } else a

/-- Article construction as performed by the collectors: the record is built
with the default empty `hash`, then `model_post_init` fills the fingerprint. -/
def mkArticle (md5 : Str → Str) (title : Str) (description : Option Str)
    (url : Str) (published_at : Option ℚ) (source : Str) (category : Str)
    (image_url : Option Str) : Article :=
  model_post_init md5
    { title := title, description := description, url := url
      published_at := published_at, source := source, category := category
      image_url := image_url }

/-! ### Title similarity (`Levenshtein.ratio`) and the Deduplicator -/

/-- Indel (insert/delete) edit distance, recursion bounded by a fuel that is
consumed strictly slower than the summed length, so the fuel never runs out
when it starts at `|s₁| + |s₂|`. -/
def indelDistFuel : ℕ → Str → Str → ℕ
  | _, [], ys => ys.length
  | _, x :: xs, [] => (x :: xs).length
  | 0, _, _ => 0
  | fuel + 1, x :: xs, y :: ys =>
    if x = y then indelDistFuel fuel xs ys
    else 1 + min (indelDistFuel fuel xs (y :: ys)) (indelDistFuel fuel (x :: xs) ys)

/-- Indel (insert/delete) edit distance between two character lists; this is
the distance underlying `Levenshtein.ratio` (substitutions cost 2, i.e. they
are never cheaper than a delete plus an insert). -/
def indelDist (s₁ s₂ : Str) : ℕ := indelDistFuel (s₁.length + s₂.length) s₁ s₂

/-- The `Levenshtein.ratio` formula `(len1 + len2 - dist) / (len1 + len2)`, and 1 for two
empty strings. -/
def similarity (s₁ s₂ : Str) : ℚ :=
  let lensum : ℕ := s₁.length + s₂.length
  if lensum = 0 then 1 else ((lensum : ℚ) - indelDist s₁ s₂) / lensum

/-- Embedding of `Deduplicator._is_similar`: normalize both titles, compare the similarity
to the configured threshold. -/
def is_similar (thr : ℚ) (title₁ title₂ : Str) : Bool :=
  decide (thr ≤ similarity (normalizeTitle title₁) (normalizeTitle title₂))

/-- The loop body of `Deduplicator.deduplicate`: walk the batch in input
order, keeping `current_hashes` (fingerprints accepted this run) and
`seen_titles` (titles accepted this run, in acceptance order). -/
def dedupLoop (thr : ℚ) (seen : List Str) :
    List Article → List Str → List Str → List Article
  | [], _, _ => []
  | a :: rest, current_hashes, seen_titles =>
    if a.hash ∈ seen ∨ a.hash ∈ current_hashes then
      dedupLoop thr seen rest current_hashes seen_titles
    else if seen_titles.any (fun t => is_similar thr a.title t) then
      dedupLoop thr seen rest current_hashes seen_titles
    else
      a :: dedupLoop thr seen rest (a.hash :: current_hashes)
        (seen_titles ++ [a.title])

/-- A cache store: fingerprint/timestamp pairs (the JSON object), timestamps
in seconds.  `none` models an absent cache file. -/
abbrev CacheMap := List (Str × ℚ)

/-- Seconds in a day (`timedelta(days=n)`). -/
def secondsPerDay : ℚ := 86400

/-- The `Deduplicator._load_cache` body: keep a fingerprint iff its timestamp is
at least `now - lookback_days` (the code's `timestamp >= cutoff_date`). -/
def load_cache (cache : CacheMap) (now lookback : ℚ) : List Str :=
  (cache.filter (fun e => decide (now - lookback * secondsPerDay ≤ e.2))).map
    (fun e => e.1)

/-- Python dict update `cache_data[hash] = now`: replace any binding of the
key and bind it to the new timestamp. -/
def upsert (m : CacheMap) (k : Str) (v : ℚ) : CacheMap :=
  m.filter (fun e => e.1 ≠ k) ++ [(k, v)]

/-- The pure part of `Deduplicator._save_cache`: merge the surviving batch into the
raw persisted entries, each mapped to `now`, then prune with the same
`timestamp >= cutoff_date` rule used by `_load_cache`. -/
def save_cache (cache : CacheMap) (articles : List Article) (now lookback : ℚ) :
    CacheMap :=
  (articles.foldl (fun m a => upsert m a.hash now) cache).filter
    (fun e => decide (now - lookback * secondsPerDay ≤ e.2))

/-- Cache I/O effects performed against the persisted store. -/
inductive CacheEff where
  | read
  | write
  deriving DecidableEq, Repr

/-- The deduplicator's in-memory state after `__init__`. -/
structure Deduplicator where
  similarity_threshold : ℚ
  lookback_days : ℚ
  seen_hashes : List Str
  deriving DecidableEq, Repr

/-- Embedding of `Deduplicator.__init__`: unconditionally loads the cache file (when it
exists) into `seen_hashes`, regardless of the enabled flag. -/
def dedupInit (thr lookback : ℚ) (store : Option CacheMap) (now : ℚ) :
    Deduplicator × List CacheEff :=
  match store with
  | none => (⟨thr, lookback, []⟩, [])
  | some cache => (⟨thr, lookback, load_cache cache now lookback⟩, [CacheEff.read])

/-- Embedding of `Deduplicator.deduplicate`: early return when disabled; otherwise run the
dedup loop and persist the surviving fingerprints (`_save_cache` re-reads the
store, merges, prunes, and writes).  Returns the result list, the new store
contents, and the cache effects performed. -/
def deduplicate (enabled : Bool) (d : Deduplicator) (store : Option CacheMap)
    (now : ℚ) (articles : List Article) :
    List Article × Option CacheMap × List CacheEff :=
  if enabled then
    let unique := dedupLoop d.similarity_threshold d.seen_hashes articles [] []
    let readEffs : List CacheEff := if store.isSome then [CacheEff.read] else []
    (unique, some (save_cache (store.getD []) unique now d.lookback_days),
      readEffs ++ [CacheEff.write])
  else
    (articles, store, [])

/-- One pipeline run's dedup lifecycle: construct the Deduplicator (which
loads the cache) and call `deduplicate`. -/
def dedupLifecycle (enabled : Bool) (thr lookback : ℚ) (store : Option CacheMap)
    (now : ℚ) (articles : List Article) :
    List Article × Option CacheMap × List CacheEff :=
  let ini := dedupInit thr lookback store now
  let run := deduplicate enabled ini.1 store now articles
  (run.1, run.2.1, ini.2 ++ run.2.2)

/-- Two successive runs over the same batch: the cache written by the first
run is the cache consulted by the second. -/
def dedupTwice (thr lookback : ℚ) (store : Option CacheMap) (now : ℚ)
    (articles : List Article) : List Article × List Article :=
  let r₁ := dedupLifecycle true thr lookback store now articles
  let r₂ := dedupLifecycle true thr lookback r₁.2.1 now articles
  (r₁.1, r₂.1)

/-- The claim's (and §4.2's) description of deduplication, written as stated:
a single pass in input order over the batch, carrying the list `acc` of
articles accepted so far; an article is dropped when its fingerprint is in
the persisted cache set or equals the fingerprint of an earlier-accepted
article, otherwise dropped when its normalized title has similarity at or
above the threshold with an earlier-accepted title, and accepted otherwise. -/
def specDedup (thr : ℚ) (seen : List Str) (acc : List Article) :
    List Article → List Article
  | [] => []
  | a :: rest =>
    if a.hash ∈ seen ∨ a.hash ∈ acc.map (fun b => b.hash) then
      specDedup thr seen acc rest
    else if (acc.map (fun b => b.title)).any (fun t => is_similar thr a.title t) then
      specDedup thr seen acc rest
    else
      a :: specDedup thr seen (acc ++ [a]) rest

/-! ### The Scorer/Filter (`src/processors/filter.py`) -/

/-- A regex word character (`\w`), ASCII-relevant part. -/
def isWordChar (c : Char) : Bool := c.isAlphanum || c = '_'

/-- The regex `\b` assertion at position `p` of `text`: a word character on
exactly one side of the position. -/
def wordBoundary (text : Str) (p : ℕ) : Bool :=
  ((decide (0 < p)) && isWordChar (text.getD (p - 1) ' ')) !=
    ((decide (p < text.length)) && isWordChar (text.getD p ' '))

/-- The literal keyword `kw` occurs in `text` starting at position `i`. -/
def matchAt (kw text : Str) (i : ℕ) : Bool :=
  decide (i + kw.length ≤ text.length) &&
    decide ((text.drop i).take kw.length = kw)

/-- The search `re.search(r'\b' + re.escape(kw) + r'\b', text)` for a literal keyword:
some position carries the keyword with a word boundary on both sides. -/
def wholeWordSearch (kw text : Str) : Bool :=
  (List.range (text.length + 1)).any fun i =>
    matchAt kw text i && wordBoundary text i && wordBoundary text (i + kw.length)

/-- Propositional form of a whole-word occurrence of `kw` inside `text`. -/
def WholeWordOccurs (kw text : Str) : Prop :=
  ∃ i, i + kw.length ≤ text.length ∧ (text.drop i).take kw.length = kw ∧
    wordBoundary text i = true ∧ wordBoundary text (i + kw.length) = true

/-- The filtering configuration surface consumed by `ArticleFilter`. -/
structure FilterCfg where
  include_keywords : List Str
  exclude_keywords : List Str
  max_articles : ℕ
  min_relevance_score : ℚ
  recency_weight : ℚ
  max_age_days : ℚ
  deriving Repr

/-- Embedding of `ArticleFilter._calculate_keyword_score`: one point per configured
keyword found as a whole word in the lower-cased text (keywords are
lower-cased once at filter construction; `kws` is that lower-cased list). -/
def calculate_keyword_score (kws : List Str) (text : Str) : ℚ :=
  if text = [] then 0
  else ((kws.filter fun kw => wholeWordSearch kw (pyLower text)).length : ℚ)

/-- The fixed `source_reputation` table, in its insertion order. -/
def sourceReputationTable : List (Str × ℚ) :=
  [("mit".toList, 2), ("ieee".toList, 2), ("arxiv".toList, 3/2),
   ("openai".toList, 3/2), ("deepmind".toList, 3/2), ("google ai".toList, 3/2),
   ("wired".toList, 1), ("techcrunch".toList, 1), ("venturebeat".toList, 1)]

/-- Python's substring test `needle in hay`. -/
def isSubstrOf (needle hay : Str) : Bool :=
  (List.range (hay.length + 1)).any fun i =>
    decide ((hay.drop i).take needle.length = needle)

/-- First table key contained in the lower-cased source name wins; unknown
sources score 0.5. -/
def repLookup : List (Str × ℚ) → Str → ℚ
  | [], _ => 1/2
  | (key, score) :: rest, s => if isSubstrOf key s then score else repLookup rest s

/-- Embedding of `ArticleFilter._get_source_reputation_score`. -/
def get_source_reputation_score (source : Str) : ℚ :=
  repLookup sourceReputationTable (pyLower source)

/-- The text scanned by the exclusion filter:
`f"{article.title} {article.description or ''}".lower()`. -/
def excludeText (a : Article) : Str :=
  pyLower (a.title ++ [' '] ++ a.description.getD [])

/-- Embedding of `ArticleFilter._should_exclude`: some (lower-cased) exclude keyword found
as a whole word in the title-plus-description text. -/
def should_exclude (cfg : FilterCfg) (a : Article) : Bool :=
  (cfg.exclude_keywords.map pyLower).any fun kw =>
    wholeWordSearch kw (excludeText a)

/-- Embedding of `ArticleFilter._get_recency_boost`: full weight within 24 hours, half the
extra weight within 48 hours, no boost otherwise or without a publish time. -/
def get_recency_boost (w : ℚ) (now : ℚ) (a : Article) : ℚ :=
  match a.published_at with
  | none => 1
  | some p =>
    let age_hours := (now - p) / 3600
    if age_hours ≤ 24 then w
    else if age_hours ≤ 48 then 1 + (w - 1) * (1 / 2)
    else 1

/-- Embedding of `ArticleFilter.calculate_relevance_score`:
`(title*3 + description*1 + reputation) * recency_boost`. -/
def calculate_relevance_score (cfg : FilterCfg) (now : ℚ) (a : Article) : ℚ :=
  let title_score := calculate_keyword_score (cfg.include_keywords.map pyLower) a.title
  let description_score :=
    calculate_keyword_score (cfg.include_keywords.map pyLower) (a.description.getD [])
  let reputation_score := get_source_reputation_score a.source
  (title_score * 3 + description_score * 1 + reputation_score) *
    get_recency_boost cfg.recency_weight now a

/-- The recency-filter test of `filter_and_rank`: keep undated articles, and
dated ones whose age is at most `max_age_days`. -/
def surviveRecency (maxAgeDays : ℚ) (now : ℚ) (a : Article) : Bool :=
  match a.published_at with
  | none => true
  | some p => decide (now - p ≤ maxAgeDays * secondsPerDay)

/-- The in-place mutation `article.relevance_score = ...` performed on one
article object. -/
def updateScore (cfg : FilterCfg) (now : ℚ) (a : Article) : Article :=
  { a with relevance_score := calculate_relevance_score cfg now a }

/-- An article reaches the scoring loop iff it passes the exclusion filter
and the recency filter. -/
def survivesPreScore (cfg : FilterCfg) (now : ℚ) (a : Article) : Bool :=
  !should_exclude cfg a && surviveRecency cfg.max_age_days now a

/-- The scoring loop acting on the shared article objects: the input batch is
a store indexed by position, and each position that passed both filters is
mutated by `updateScore`. -/
def applyScores (cfg : FilterCfg) (now : ℚ) (arts : List Article) : List Article :=
  ((List.range arts.length).filter fun i =>
      survivesPreScore cfg now (arts.getD i default)).foldl
    (fun st i => st.set i (updateScore cfg now (st.getD i default))) arts

/-- Stable insertion of `a` after every element whose score is at least
`a`'s: the insertion step of a stable descending sort. -/
def insertDesc (a : Article) : List Article → List Article
  | [] => [a]
  | b :: l =>
    if a.relevance_score ≤ b.relevance_score then b :: insertDesc a l
    else a :: b :: l

/-- The sort `sorted(scored_articles, key=lambda x: x.relevance_score, reverse=True)`:
a stable sort, descending by score (ties keep original order). -/
def sortDesc (l : List Article) : List Article :=
  l.foldl (fun acc a => insertDesc a acc) []

/-- Scores are non-increasing along the list. -/
def ScoreSortedDesc (l : List Article) : Prop :=
  List.Pairwise (fun x y => y.relevance_score ≤ x.relevance_score) l

/-- First stage of `ArticleFilter.filter_and_rank`: the exclusion filter. -/
def stageFiltered (cfg : FilterCfg) (arts : List Article) : List Article :=
  arts.filter fun a => !should_exclude cfg a

/-- Second stage: the recency filter. -/
def stageRecent (cfg : FilterCfg) (now : ℚ) (arts : List Article) : List Article :=
  (stageFiltered cfg arts).filter (surviveRecency cfg.max_age_days now)

/-- Fourth stage: the minimum-score filter over the scored survivors. -/
def stageScored (cfg : FilterCfg) (now : ℚ) (arts : List Article) : List Article :=
  ((stageRecent cfg now arts).map (updateScore cfg now)).filter fun a =>
    decide (cfg.min_relevance_score ≤ a.relevance_score)

/-- Embedding of `ArticleFilter.filter_and_rank`.  Returns the result of the call and the
final state of the input batch's article objects.  The closing log line
indexes `top_articles[0]`, which raises `IndexError` when the truncated list
is empty; that is the `Except.error` case. -/
def filter_and_rank (cfg : FilterCfg) (now : ℚ) (arts : List Article) :
    Except Unit (List Article) × List Article :=
  let filtered := stageFiltered cfg arts
  if filtered.isEmpty then (Except.ok [], arts)
  else
    let recent := stageRecent cfg now arts
    if recent.isEmpty then (Except.ok [], arts)
    else
      let store := applyScores cfg now arts
      let scored := stageScored cfg now arts
      if scored.isEmpty then (Except.ok [], store)
      else
        let top := (sortDesc scored).take cfg.max_articles
        if top.isEmpty then (Except.error (), store)
        else (Except.ok top, store)

/-- An article with the score field blanked: equality under `sansScore`
means every field other than `relevance_score` agrees. -/
def sansScore (a : Article) : Article := { a with relevance_score := 0 }

/-- A concrete filter configuration for concrete runs: include keywords
"robot" and "AI", no exclude keywords, top 5, zero minimum score, recency
weight 2, maximum age 7 days. -/
def sampleCfg : FilterCfg :=
  { include_keywords := ["robot".toList, "AI".toList], exclude_keywords := [],
    max_articles := 5, min_relevance_score := 0, recency_weight := 2,
    max_age_days := 7 }

/-- A concrete undated article with Scenario 3's title. -/
def sampleArticle : Article :=
  { title := "New AI robot startup raises funding".toList,
    url := "https://a/1".toList, source := "techcrunch".toList,
    category := "ai".toList, hash := "h".toList }

/-- A configuration whose `max_articles` is zero (everything else permissive). -/
def zeroCapCfg : FilterCfg :=
  { include_keywords := [], exclude_keywords := [], max_articles := 0,
    min_relevance_score := 0, recency_weight := 1, max_age_days := 7 }

/-- A concrete undated article from a reputable source. -/
def zeroCapArticle : Article :=
  { title := "a".toList, url := "https://a/1".toList, source := "mit".toList,
    category := "ai".toList, hash := "h".toList }

/-! ## Theorems -/

/-- The fuelled indel distance of a string with itself is zero. -/
theorem indelDistFuel_self : ∀ (fuel : ℕ) (s : Str), indelDistFuel fuel s s = 0 := by
  intro fuel s
  induction s generalizing fuel with
  | nil => cases fuel <;> rfl
  | cons x xs ih =>
    cases fuel with
    | zero => rfl
    | succ fuel => simp [indelDistFuel, ih]

/-- The similarity ratio of a non-empty string with itself is 1. -/
theorem similarity_self (s : Str) (h : s ≠ []) : similarity s s = 1 := by
  have hlen : s.length ≠ 0 := fun hh => h (List.eq_nil_of_length_eq_zero hh)
  unfold similarity indelDist
  rw [indelDistFuel_self]
  rw [if_neg (by omega)]
  push_cast
  rw [sub_zero, div_self (by exact_mod_cast by omega)]

/-- A title is always similar to itself at any threshold at most 1. -/
theorem is_similar_self (thr : ℚ) (t : Str) (hthr : thr ≤ 1)
    (h : normalizeTitle t ≠ []) : is_similar thr t t = true := by
  simp [is_similar, similarity_self _ h, hthr]

/-- C2: for all articles A and B built at construction time (default empty
hash field), identical normalized (lower-cased, trimmed) titles and identical
raw URLs give identical fingerprints, regardless of every other field, for
every deterministic digest function `md5`. -/
theorem fingerprint_deterministic (md5 : Str → Str)
    (t₁ t₂ u : Str) (d₁ d₂ : Option Str) (p₁ p₂ : Option ℚ)
    (s₁ s₂ c₁ c₂ : Str) (i₁ i₂ : Option Str)
    (hnorm : normalizeTitle t₁ = normalizeTitle t₂) :
    (mkArticle md5 t₁ d₁ u p₁ s₁ c₁ i₁).hash
      = (mkArticle md5 t₂ d₂ u p₂ s₂ c₂ i₂).hash := by
  simp [mkArticle, model_post_init, generate_hash, hnorm]

/-- C2 witness: two articles differing by title case and by every other
field share the fingerprint (Scenario 1 of the spec). -/
theorem fingerprint_deterministic_witness :
    (mkArticle id "OpenAI releases GPT-5".toList (some "x".toList)
        "https://a.example/1".toList (some 10) "Wired".toList "ai".toList
        none).hash
      = (mkArticle id "OpenAI Releases GPT-5".toList none
        "https://a.example/1".toList none "MIT".toList "research".toList
        (some "https://img".toList)).hash :=
  fingerprint_deterministic id _ _ _ _ _ _ _ _ _ _ _ _ _ (by decide)

/-- The Deduplicator's loop equals the spec's single pass: `cur` mirrors the
fingerprints of the accepted articles `acc`, `titles` mirrors their titles. -/
theorem dedupLoop_eq_specDedup (thr : ℚ) (seen : List Str) (rest : List Article) :
    ∀ (acc : List Article) (cur titles : List Str),
      (∀ h, h ∈ cur ↔ h ∈ acc.map (fun b => b.hash)) →
      titles = acc.map (fun b => b.title) →
      dedupLoop thr seen rest cur titles = specDedup thr seen acc rest := by
  induction rest with
  | nil => intro acc cur titles _ _; rfl
  | cons a rest ih =>
    intro acc cur titles hcur ht
    have hcur' : (a.hash ∈ cur) = (a.hash ∈ acc.map fun b => b.hash) :=
      propext (hcur a.hash)
    simp only [dedupLoop, specDedup, ht]
    by_cases h1 : a.hash ∈ seen ∨ a.hash ∈ List.map (fun b => b.hash) acc
    · have h1' : a.hash ∈ seen ∨ a.hash ∈ cur :=
        h1.imp id fun hx => (hcur _).mpr hx
      rw [if_pos h1', if_pos h1]
      exact ih acc cur _ hcur rfl
    · have h1' : ¬(a.hash ∈ seen ∨ a.hash ∈ cur) :=
        fun hx => h1 (hx.imp id fun hy => (hcur _).mp hy)
      rw [if_neg h1', if_neg h1]
      by_cases h2 :
        ((List.map (fun b => b.title) acc).any fun t => is_similar thr a.title t) = true
      · rw [if_pos h2, if_pos h2]
        exact ih acc cur _ hcur rfl
      · rw [if_neg h2, if_neg h2]
        refine congrArg (a :: ·) (ih (acc ++ [a]) (a.hash :: cur) _ ?_ ?_)
        · intro h
          simp only [List.mem_cons, hcur h, List.map_append, List.mem_append,
            List.map_cons, List.map_nil, List.mem_singleton]
          tauto
        · simp

/-- The dedup loop's output is a subsequence of its input. -/
theorem dedupLoop_sublist (thr : ℚ) (seen : List Str) (rest : List Article) :
    ∀ (cur titles : List Str),
      List.Sublist (dedupLoop thr seen rest cur titles) rest := by
  induction rest with
  | nil => intro cur titles; simp [dedupLoop]
  | cons a rest ih =>
    intro cur titles
    simp only [dedupLoop]
    split_ifs with h1 h2
    · exact (ih cur titles).cons a
    · exact (ih cur titles).cons a
    · exact (ih (a.hash :: cur) (titles ++ [a.title])).cons₂ a

/-- C1: with deduplication enabled, the Deduplicator's output is exactly the
single pass described by the spec — drop on a fingerprint already in the
loaded cache set or equal to an earlier-accepted article's fingerprint, else
drop on normalized-title similarity at or above the threshold against some
earlier-accepted title, else accept — and it is a subsequence of the input
(relative order preserved, first-seen-wins). -/
theorem deduplicate_refines_spec (thr lookback now : ℚ) (seen : List Str)
    (store : Option CacheMap) (articles : List Article) :
    (deduplicate true ⟨thr, lookback, seen⟩ store now articles).1
        = specDedup thr seen [] articles ∧
    List.Sublist (deduplicate true ⟨thr, lookback, seen⟩ store now articles).1
      articles := by
  have h1 : (deduplicate true ⟨thr, lookback, seen⟩ store now articles).1
      = dedupLoop thr seen articles [] [] := by
    simp [deduplicate]
  constructor
  · rw [h1]
    exact dedupLoop_eq_specDedup thr seen articles [] [] [] (by simp) rfl
  · rw [h1]
    exact dedupLoop_sublist thr seen articles [] []

/-- A fingerprint already bound to `now` survives the whole merge fold. -/
theorem mem_fold_upsert_keeps (now : ℚ) (k : Str) (l : List Article) :
    ∀ (m : CacheMap), (k, now) ∈ m →
      (k, now) ∈ l.foldl (fun m a => upsert m a.hash now) m := by
  induction l with
  | nil => intro m hm; exact hm
  | cons a l ih =>
    intro m hm
    apply ih
    by_cases hk : k = a.hash
    · simp [upsert, hk]
    · simp [upsert, List.mem_filter, hm, hk]

/-- Every fingerprint of the merged batch ends bound to `now` in the fold. -/
theorem mem_fold_upsert_adds (now : ℚ) (k : Str) (l : List Article) :
    ∀ (m : CacheMap), k ∈ l.map (fun a => a.hash) →
      (k, now) ∈ l.foldl (fun m a => upsert m a.hash now) m := by
  induction l with
  | nil => intro m hm; simp at hm
  | cons a l ih =>
    intro m hk
    simp only [List.map_cons, List.mem_cons] at hk
    rcases hk with hk | hk
    · exact mem_fold_upsert_keeps now k l _ (by simp [upsert, hk])
    · exact ih _ hk

/-- An existing binding survives the merge fold, possibly refreshed to `now`. -/
theorem mem_fold_upsert_of_mem (now : ℚ) (k : Str) (ts : ℚ) (l : List Article) :
    ∀ (m : CacheMap), (k, ts) ∈ m →
      (k, ts) ∈ l.foldl (fun m a => upsert m a.hash now) m ∨
        (k, now) ∈ l.foldl (fun m a => upsert m a.hash now) m := by
  induction l with
  | nil => intro m hm; exact Or.inl hm
  | cons a l ih =>
    intro m hm
    by_cases hk : k = a.hash
    · exact Or.inr (mem_fold_upsert_keeps now k l _ (by simp [upsert, hk]))
    · exact ih _ (by simp [upsert, List.mem_filter, hm, hk])

/-- Membership in the fingerprint set produced by the load-time prune. -/
theorem mem_load_cache_iff (cache : CacheMap) (now lookback : ℚ) (k : Str) :
    k ∈ load_cache cache now lookback ↔
      ∃ ts, (k, ts) ∈ cache ∧ now - lookback * secondsPerDay ≤ ts := by
  unfold load_cache
  simp only [List.mem_map, List.mem_filter, decide_eq_true_eq]
  constructor
  · rintro ⟨⟨k', ts⟩, ⟨hmem, hts⟩, rfl⟩
    exact ⟨ts, hmem, hts⟩
  · rintro ⟨ts, hmem, hts⟩
    exact ⟨(k, ts), ⟨hmem, hts⟩, rfl⟩

/-- With a non-negative lookback, the cutoff does not exceed `now`. -/
theorem cutoff_le_now (now lookback : ℚ) (hlb : 0 ≤ lookback) :
    now - lookback * secondsPerDay ≤ now := by
  have h : 0 ≤ lookback * secondsPerDay :=
    mul_nonneg hlb (by norm_num [secondsPerDay])
  linarith

/-- A fingerprint surviving the load-time prune still survives after a save
that merges a new batch (its timestamp is kept or refreshed to `now`). -/
theorem load_save_preserved (cache : CacheMap) (articles : List Article)
    (now lookback : ℚ) (k : Str) (hlb : 0 ≤ lookback)
    (hk : k ∈ load_cache cache now lookback) :
    k ∈ load_cache (save_cache cache articles now lookback) now lookback := by
  rw [mem_load_cache_iff] at hk ⊢
  obtain ⟨ts, hmem, hts⟩ := hk
  rcases mem_fold_upsert_of_mem now k ts articles cache hmem with h | h
  · refine ⟨ts, ?_, hts⟩
    simp only [save_cache, List.mem_filter, decide_eq_true_eq]
    exact ⟨h, hts⟩
  · refine ⟨now, ?_, cutoff_le_now now lookback hlb⟩
    simp only [save_cache, List.mem_filter, decide_eq_true_eq]
    exact ⟨h, cutoff_le_now now lookback hlb⟩

/-- Every fingerprint of the saved batch is in the set loaded from the new
cache at the same instant. -/
theorem accepted_in_load_save (cache : CacheMap) (articles : List Article)
    (now lookback : ℚ) (k : Str) (hlb : 0 ≤ lookback)
    (hk : k ∈ articles.map (fun a => a.hash)) :
    k ∈ load_cache (save_cache cache articles now lookback) now lookback := by
  rw [mem_load_cache_iff]
  refine ⟨now, ?_, cutoff_le_now now lookback hlb⟩
  simp only [save_cache, List.mem_filter, decide_eq_true_eq]
  exact ⟨mem_fold_upsert_adds now k articles cache hk,
    cutoff_le_now now lookback hlb⟩

/-- When every batch fingerprint is in the seen-set, the loop drops everything. -/
theorem dedupLoop_all_seen (thr : ℚ) (seen : List Str) (articles : List Article) :
    ∀ (cur titles : List Str), (∀ a ∈ articles, a.hash ∈ seen) →
      dedupLoop thr seen articles cur titles = [] := by
  induction articles with
  | nil => intros; rfl
  | cons a rest ih =>
    intro cur titles hall
    rw [dedupLoop.eq_def]
    simp only [if_pos (Or.inl (hall a (by simp)))]
    exact ih cur titles fun b hb => hall b (by simp [hb])

/-- The seen-set built by `__init__` is the load-time prune of the store. -/
theorem dedupInit_seen (thr lookback now : ℚ) (store : Option CacheMap) :
    (dedupInit thr lookback store now).1.seen_hashes
      = load_cache (store.getD []) now lookback := by
  cases store <;> simp [dedupInit, load_cache]

/-- Projection: `__init__` stores the configured threshold. -/
theorem dedupInit_thr (thr lookback now : ℚ) (store : Option CacheMap) :
    (dedupInit thr lookback store now).1.similarity_threshold = thr := by
  cases store <;> rfl

/-- Projection: `__init__` stores the configured lookback. -/
theorem dedupInit_lb (thr lookback now : ℚ) (store : Option CacheMap) :
    (dedupInit thr lookback store now).1.lookback_days = lookback := by
  cases store <;> rfl

/-- C3 amended: re-running deduplication on the same batch with the cache
written by the first pass yields an empty second result provided every batch
article was either already in the first pass's seen-set or accepted by the
first pass — i.e. provided the first pass dropped no article purely as a
near-duplicate (near-duplicate drops are not persisted to the cache). -/
theorem dedup_rerun_empty (thr lookback now : ℚ) (store : Option CacheMap)
    (articles : List Article) (hlb : 0 ≤ lookback)
    (hall : ∀ a ∈ articles,
      a.hash ∈ (dedupInit thr lookback store now).1.seen_hashes ∨
        a.hash ∈ (dedupTwice thr lookback store now articles).1.map
          (fun b => b.hash)) :
    (dedupTwice thr lookback store now articles).2 = [] := by
  simp only [dedupTwice, dedupLifecycle, deduplicate, dedupInit_thr,
    dedupInit_lb, dedupInit_seen, if_true, Option.getD_some] at hall ⊢
  apply dedupLoop_all_seen
  intro a ha
  rcases hall a ha with h | h
  · exact load_save_preserved _ _ _ _ _ hlb h
  · exact accepted_in_load_save _ _ _ _ _ hlb h

/-- C3 amended witness: a batch consisting of an article and an exact
duplicate of it (same fingerprint): the second run returns nothing. -/
theorem dedup_rerun_empty_witness :
    (dedupTwice (17/20) 7 none 0
      [{ title := "Tesla unveils robot".toList, url := "https://a/1".toList,
         source := "s".toList, category := "ai".toList, hash := "h1".toList },
       { title := "Tesla unveils robot".toList, url := "https://a/2".toList,
         source := "s".toList, category := "ai".toList, hash := "h1".toList }]).2
      = [] := by
  apply dedup_rerun_empty (17/20) 7 0 none _ (by norm_num)
  have h1 : dedupLifecycle true (17/20) 7 none 0
      [{ title := "Tesla unveils robot".toList, url := "https://a/1".toList,
         source := "s".toList, category := "ai".toList, hash := "h1".toList },
       { title := "Tesla unveils robot".toList, url := "https://a/2".toList,
         source := "s".toList, category := "ai".toList, hash := "h1".toList }]
      = ([{ title := "Tesla unveils robot".toList, url := "https://a/1".toList,
            source := "s".toList, category := "ai".toList,
            hash := "h1".toList }],
         some [("h1".toList, 0)], [CacheEff.write]) := by
    simp [dedupLifecycle, deduplicate, dedupInit, dedupLoop, load_cache,
      save_cache, upsert, secondsPerDay]
  intro a ha
  right
  simp only [dedupTwice, h1]
  simp only [List.mem_cons, List.not_mem_nil, or_false] at ha
  rcases ha with rfl | rfl <;> simp

/-- C3 counterexample: the second article is dropped by the first pass only
as a near-duplicate (same title, different fingerprint), so its fingerprint
is never cached, and the second pass accepts it: the second result is not
empty, refuting the claimed idempotent re-run. -/
theorem dedup_rerun_counterexample :
    (dedupTwice (17/20) 7 none 0
      [{ title := "Tesla unveils robot".toList, url := "https://a/1".toList,
         source := "s".toList, category := "ai".toList, hash := "h1".toList },
       { title := "Tesla unveils robot".toList, url := "https://a/2".toList,
         source := "s".toList, category := "ai".toList, hash := "h2".toList }]).2
      = [{ title := "Tesla unveils robot".toList, url := "https://a/2".toList,
           source := "s".toList, category := "ai".toList,
           hash := "h2".toList }] := by
  have hsim : is_similar (17/20) "Tesla unveils robot".toList
      "Tesla unveils robot".toList = true :=
    is_similar_self _ _ (by norm_num) (by decide)
  simp at hsim
  have h1 : dedupLifecycle true (17/20) 7 none 0
      [{ title := "Tesla unveils robot".toList, url := "https://a/1".toList,
         source := "s".toList, category := "ai".toList, hash := "h1".toList },
       { title := "Tesla unveils robot".toList, url := "https://a/2".toList,
         source := "s".toList, category := "ai".toList, hash := "h2".toList }]
      = ([{ title := "Tesla unveils robot".toList, url := "https://a/1".toList,
            source := "s".toList, category := "ai".toList,
            hash := "h1".toList }],
         some [("h1".toList, 0)], [CacheEff.write]) := by
    simp [dedupLifecycle, deduplicate, dedupInit, dedupLoop, load_cache,
      save_cache, upsert, secondsPerDay, hsim]
  simp only [dedupTwice, h1]
  simp [dedupLifecycle, deduplicate, dedupInit, dedupLoop, load_cache,
    save_cache, upsert, secondsPerDay, hsim]

/-- C4: an entry whose timestamp is strictly older than
`now - lookback_days` is absent from the loaded fingerprint set, and an entry
exactly at the boundary is treated consistently — kept — by both the
load-time prune and the save-time prune (both use `timestamp >= cutoff`). -/
theorem cache_prune_boundary (cache : CacheMap) (k j : Str) (now lookback : ℚ)
    (hstale : ∀ ts, (j, ts) ∈ cache → ts < now - lookback * secondsPerDay)
    (hbound : (k, now - lookback * secondsPerDay) ∈ cache) :
    j ∉ load_cache cache now lookback ∧
    k ∈ load_cache cache now lookback ∧
    (k, now - lookback * secondsPerDay) ∈ save_cache cache [] now lookback := by
  refine ⟨?_, ?_, ?_⟩
  · intro hj
    rw [mem_load_cache_iff] at hj
    obtain ⟨ts, hmem, hts⟩ := hj
    exact absurd hts (not_le.mpr (hstale ts hmem))
  · exact (mem_load_cache_iff cache now lookback k).mpr ⟨_, hbound, le_refl _⟩
  · simp only [save_cache, List.foldl_nil, List.mem_filter, decide_eq_true_eq]
    exact ⟨hbound, le_refl _⟩

/-- C4 witness: lookback 7 days and `now = 0`: a fingerprint one second older
than the cutoff `-604800` is pruned at load; one exactly at the cutoff is
kept by the load and by the save. -/
theorem cache_prune_boundary_witness :
    "j".toList ∉ load_cache
        [("j".toList, -604801), ("k".toList, -604800)] 0 7 ∧
    "k".toList ∈ load_cache
        [("j".toList, -604801), ("k".toList, -604800)] 0 7 ∧
    ("k".toList, (0 : ℚ) - 7 * secondsPerDay) ∈ save_cache
        [("j".toList, -604801), ("k".toList, -604800)] [] 0 7 := by
  have hb : ((0 : ℚ) - 7 * secondsPerDay) = -604800 := by
    norm_num [secondsPerDay]
  refine cache_prune_boundary _ _ _ 0 7 ?_ ?_
  · intro ts hts
    rw [hb]
    simp only [List.mem_cons, List.not_mem_nil, or_false, Prod.mk.injEq] at hts
    rcases hts with ⟨-, rfl⟩ | ⟨hjk, -⟩
    · norm_num
    · exact absurd hjk (by decide)
  · rw [hb]
    simp

/-- C8 counterexample: with deduplication disabled by configuration and a
cache file present, the Deduplicator's construction still reads the cache, so
the full lifecycle does read it. -/
theorem dedup_disabled_reads_cache :
    CacheEff.read ∈
      (dedupLifecycle false 1 7 (some [("h".toList, 0)]) 0 []).2.2 := by
  decide

/-- C8 amended: when deduplication is disabled, the `deduplicate` call itself
returns the input unchanged and neither reads nor writes the cache; the cache
is nevertheless read once during Deduplicator construction whenever the cache
file exists, irrespective of the enabled flag. -/
theorem dedup_disabled_frame (d : Deduplicator) (store : Option CacheMap)
    (now : ℚ) (articles : List Article) (thr lookback now' : ℚ)
    (cache : CacheMap) :
    deduplicate false d store now articles = (articles, store, []) ∧
    (dedupInit thr lookback (some cache) now').2 = [CacheEff.read] ∧
    (dedupInit thr lookback none now').2 = [] :=
  ⟨rfl, rfl, rfl⟩

/-- The executable regex search agrees with the propositional whole-word
occurrence. -/
theorem wholeWordSearch_iff (kw text : Str) :
    wholeWordSearch kw text = true ↔ WholeWordOccurs kw text := by
  unfold wholeWordSearch WholeWordOccurs matchAt
  simp only [List.any_eq_true, List.mem_range, Bool.and_eq_true, decide_eq_true_eq]
  constructor
  · rintro ⟨i, -, ⟨⟨hle, heq⟩, hb1⟩, hb2⟩
    exact ⟨i, hle, heq, hb1, hb2⟩
  · rintro ⟨i, hle, heq, hb1, hb2⟩
    exact ⟨i, by omega, ⟨⟨hle, heq⟩, hb1⟩, hb2⟩

/-- C7: an article is dropped by the exclusion filter iff some configured
exclude-keyword occurs, lower-cased, as a whole word (word boundary on both
sides) in the lower-cased title-plus-description text; and concretely,
"crypto" inside "cryptocurrency" (proper substring of a longer word) does not
exclude, while "crypto trading bot" does (Scenario 4). -/
theorem exclusion_iff_whole_word :
    (∀ (cfg : FilterCfg) (a : Article),
      should_exclude cfg a = true ↔
        ∃ kw ∈ cfg.exclude_keywords,
          WholeWordOccurs (pyLower kw) (excludeText a)) ∧
    should_exclude
        { include_keywords := [], exclude_keywords := ["crypto".toList],
          max_articles := 10, min_relevance_score := 0, recency_weight := 1,
          max_age_days := 7 }
        { title := "new cryptocurrency exchange".toList,
          url := "https://a/1".toList, source := "s".toList,
          category := "ai".toList, hash := "h".toList } = false ∧
    should_exclude
        { include_keywords := [], exclude_keywords := ["crypto".toList],
          max_articles := 10, min_relevance_score := 0, recency_weight := 1,
          max_age_days := 7 }
        { title := "crypto trading bot".toList,
          url := "https://a/1".toList, source := "s".toList,
          category := "ai".toList, hash := "h".toList } = true := by
  refine ⟨?_, by decide, by decide⟩
  intro cfg a
  unfold should_exclude
  simp only [List.any_eq_true, List.mem_map]
  constructor
  · rintro ⟨kw', ⟨kw, hkw, rfl⟩, hs⟩
    exact ⟨kw, hkw, (wholeWordSearch_iff _ _).mp hs⟩
  · rintro ⟨kw, hkw, ho⟩
    exact ⟨pyLower kw, ⟨kw, hkw, rfl⟩, (wholeWordSearch_iff _ _).mpr ho⟩

/-- Reading (`getD`) after `set` at the same (in-range) position. -/
theorem getD_set_self (l : List Article) (i : ℕ) (x : Article)
    (h : i < l.length) : (l.set i x).getD i default = x := by
  simp [List.getD_eq_getElem?_getD, List.getElem?_set_self h]

/-- Reading (`getD`) after `set` at a different position. -/
theorem getD_set_ne (l : List Article) (i j : ℕ) (x : Article) (h : i ≠ j) :
    (l.set i x).getD j default = l.getD j default := by
  simp [List.getD_eq_getElem?_getD, List.getElem?_set_ne h]

/-- The scoring fold preserves the length of the store. -/
theorem foldl_set_length (f : Article → Article) (idxs : List ℕ) :
    ∀ (st : List Article),
      (idxs.foldl (fun s i => s.set i (f (s.getD i default))) st).length
        = st.length := by
  induction idxs with
  | nil => intro st; rfl
  | cons i idxs ih =>
    intro st
    simp only [List.foldl_cons]
    rw [ih, List.length_set]

/-- Pointwise description of the scoring fold: a position is mutated exactly
when its (distinct) index occurs in the processed index list. -/
theorem foldl_set_getD (f : Article → Article) (idxs : List ℕ) :
    ∀ (st : List Article) (j : ℕ), idxs.Nodup →
      (idxs.foldl (fun s i => s.set i (f (s.getD i default))) st).getD j default
        = if j ∈ idxs ∧ j < st.length then f (st.getD j default)
          else st.getD j default := by
  induction idxs with
  | nil => intro st j _; simp
  | cons i idxs ih =>
    intro st j hnd
    have hnd' : idxs.Nodup := hnd.of_cons
    have hnotin : i ∉ idxs := (List.nodup_cons.mp hnd).1
    simp only [List.foldl_cons]
    rw [ih _ j hnd', List.length_set]
    by_cases hji : j = i
    · subst hji
      have hjnot : j ∉ idxs := hnotin
      by_cases hlt : j < st.length
      · rw [if_neg (fun hc => hjnot hc.1), getD_set_self st j _ hlt,
          if_pos ⟨List.mem_cons_self j idxs, hlt⟩]
      · rw [if_neg (fun hc => hjnot hc.1),
          List.set_eq_of_length_le (Nat.le_of_not_lt hlt),
          if_neg (fun hc => hlt hc.2)]
    · rw [getD_set_ne st i j _ (fun he => hji he.symm)]
      by_cases hmem : j ∈ idxs ∧ j < st.length
      · rw [if_pos hmem, if_pos ⟨List.mem_cons_of_mem i hmem.1, hmem.2⟩]
      · rw [if_neg hmem,
          if_neg (fun hc => hmem ⟨(List.mem_cons.mp hc.1).resolve_left hji, hc.2⟩)]

/-- The scoring loop mutates exactly the survivors of the exclusion and
recency filters, by `updateScore`, and leaves every other article alone. -/
theorem applyScores_eq (cfg : FilterCfg) (now : ℚ) (arts : List Article) :
    applyScores cfg now arts
      = arts.map fun a =>
          if survivesPreScore cfg now a = true then updateScore cfg now a
          else a := by
  have hnd : ((List.range arts.length).filter fun i =>
      survivesPreScore cfg now (arts.getD i default)).Nodup :=
    (List.nodup_range _).filter _
  have hlen : (applyScores cfg now arts).length = arts.length :=
    foldl_set_length _ _ _
  apply List.ext_getElem (by rw [hlen, List.length_map])
  intro j h1 h2
  have hj : j < arts.length := by rwa [hlen] at h1
  have hgetD : (applyScores cfg now arts).getD j default
      = if survivesPreScore cfg now (arts.getD j default) = true
        then updateScore cfg now (arts.getD j default)
        else arts.getD j default := by
    rw [applyScores, foldl_set_getD _ _ _ _ hnd]
    by_cases hs : survivesPreScore cfg now (arts.getD j default) = true
    · have hmemf : j ∈ (List.range arts.length).filter
          (fun i => survivesPreScore cfg now (arts.getD i default)) :=
        List.mem_filter.mpr ⟨List.mem_range.mpr hj, hs⟩
      rw [if_pos ⟨hmemf, hj⟩, if_pos hs]
    · have hnmem : ¬(j ∈ (List.range arts.length).filter
          (fun i => survivesPreScore cfg now (arts.getD i default))
          ∧ j < arts.length) := by
        rintro ⟨hmemf, -⟩
        exact hs (List.mem_filter.mp hmemf).2
      rw [if_neg hnmem, if_neg hs]
  have h1' : (applyScores cfg now arts).getD j default
      = (applyScores cfg now arts)[j] :=
    (List.getD_eq_getElem?_getD _ _ _).trans (by rw [List.getElem?_eq_getElem h1]; rfl)
  have h2' : arts.getD j default = arts[j] :=
    (List.getD_eq_getElem?_getD _ _ _).trans (by rw [List.getElem?_eq_getElem hj]; rfl)
  rw [← h1', hgetD, List.getElem_map, ← h2']

/-- Articles failing the pre-score filters are mapped to themselves. -/
theorem map_update_id (cfg : FilterCfg) (now : ℚ) (l : List Article)
    (hall : ∀ a ∈ l, survivesPreScore cfg now a = false) :
    (l.map fun a => if survivesPreScore cfg now a = true
        then updateScore cfg now a else a) = l := by
  induction l with
  | nil => rfl
  | cons a t ih =>
    simp only [List.map_cons]
    rw [if_neg (by rw [hall a (by simp)]; simp),
      ih (fun b hb => hall b (by simp [hb]))]

/-- The final state of the input batch after `filter_and_rank`: exactly the
survivors of the exclusion and recency filters carry an updated score. -/
theorem filter_and_rank_snd (cfg : FilterCfg) (now : ℚ) (arts : List Article) :
    (filter_and_rank cfg now arts).2
      = arts.map fun a =>
          if survivesPreScore cfg now a = true then updateScore cfg now a
          else a := by
  simp only [filter_and_rank]
  by_cases h1 : (stageFiltered cfg arts).isEmpty
  · rw [if_pos h1]
    refine (map_update_id cfg now arts fun a ha => ?_).symm
    have hnil : stageFiltered cfg arts = [] := List.isEmpty_iff.mp h1
    have hex : ¬((!should_exclude cfg a) = true) :=
      List.filter_eq_nil_iff.mp hnil a ha
    unfold survivesPreScore
    simp only [Bool.and_eq_false_iff]
    left
    simpa using hex
  · rw [if_neg h1]
    by_cases h2 : (stageRecent cfg now arts).isEmpty
    · rw [if_pos h2]
      refine (map_update_id cfg now arts fun a ha => ?_).symm
      have hnil : stageRecent cfg now arts = [] := List.isEmpty_iff.mp h2
      by_contra hne
      have hs : survivesPreScore cfg now a = true := by
        cases hval : survivesPreScore cfg now a
        · exact absurd hval hne
        · rfl
      have hparts := (Bool.and_eq_true _ _).mp (by rwa [survivesPreScore] at hs)
      have hmem : a ∈ stageRecent cfg now arts := by
        unfold stageRecent stageFiltered
        exact List.mem_filter.mpr ⟨List.mem_filter.mpr ⟨ha, hparts.1⟩, hparts.2⟩
      rw [hnil] at hmem
      exact absurd hmem (List.not_mem_nil a)
    · rw [if_neg h2]
      split_ifs <;> exact applyScores_eq cfg now arts

/-- C10: `filter_and_rank` updates `relevance_score` in place on exactly the
article objects that survive the exclusion and recency filters — including
those later dropped by the minimum-score filter or the `max_articles`
truncation — and modifies no other field of any input article. -/
theorem filter_and_rank_mutation (cfg : FilterCfg) (now : ℚ)
    (arts : List Article) :
    (filter_and_rank cfg now arts).2
      = (arts.map fun a => if survivesPreScore cfg now a = true
          then updateScore cfg now a else a) ∧
    ∀ i, i < arts.length →
      sansScore (((filter_and_rank cfg now arts).2).getD i default)
        = sansScore (arts.getD i default) := by
  refine ⟨filter_and_rank_snd cfg now arts, ?_⟩
  intro i hi
  rw [filter_and_rank_snd cfg now arts]
  have h1 : (arts.map fun a => if survivesPreScore cfg now a = true
      then updateScore cfg now a else a)[i]?
      = some (if survivesPreScore cfg now arts[i] = true
          then updateScore cfg now arts[i] else arts[i]) := by
    rw [List.getElem?_map, List.getElem?_eq_getElem hi]
    rfl
  have h2 : arts[i]? = some arts[i] := List.getElem?_eq_getElem hi
  rw [List.getD_eq_getElem?_getD, h1, List.getD_eq_getElem?_getD, h2]
  show sansScore (if survivesPreScore cfg now arts[i] = true
      then updateScore cfg now arts[i] else arts[i]) = sansScore arts[i]
  split_ifs <;> rfl

/-- C10 witness: on a one-article batch, the final state of the article
agrees with the input on every field other than the score. -/
theorem filter_and_rank_mutation_witness :
    sansScore (((filter_and_rank
        { include_keywords := ["ai".toList], exclude_keywords := [],
          max_articles := 5, min_relevance_score := 0, recency_weight := 1,
          max_age_days := 7 } 0
        [{ title := "ai news".toList, url := "https://a/1".toList,
           source := "mit".toList, category := "ai".toList,
           hash := "h".toList }]).2).getD 0 default)
      = sansScore ([{ title := "ai news".toList, url := "https://a/1".toList,
                      source := "mit".toList, category := "ai".toList,
                      hash := "h".toList }].getD 0 default) :=
  (filter_and_rank_mutation _ 0 _).2 0 (by simp)

/-- No keyword matches inside empty text (`\b` cannot hold in ""). -/
theorem wholeWordSearch_nil (kw : Str) : wholeWordSearch kw [] = false := by
  simp [wholeWordSearch, wordBoundary]

/-- The keyword score counts the configured (lower-cased) keywords
found as whole words, also for empty text. -/
theorem calculate_keyword_score_eq (kws : List Str) (text : Str) :
    calculate_keyword_score kws text
      = ((kws.filter fun kw => wholeWordSearch kw (pyLower text)).length : ℚ) := by
  unfold calculate_keyword_score
  split_ifs with h
  · subst h
    have hf : (kws.filter fun kw => wholeWordSearch kw (pyLower [])) = [] :=
      List.filter_eq_nil_iff.mpr fun kw _ => by
        simp [pyLower, wholeWordSearch_nil]
    rw [hf]
    rfl
  · rfl

/-- The recency boost in terms of the raw age (age/3600 hours compared with
24 resp. 48 is age compared with 24·3600 resp. 48·3600 seconds). -/
theorem get_recency_boost_eq (w now : ℚ) (a : Article) :
    get_recency_boost w now a
      = match a.published_at with
        | none => 1
        | some p =>
          if now - p ≤ 24 * 3600 then w
          else if now - p ≤ 48 * 3600 then 1 + (w - 1) * (1 / 2)
          else 1 := by
  unfold get_recency_boost
  cases a.published_at with
  | none => rfl
  | some p =>
    have h24 : ((now - p) / 3600 ≤ 24) = (now - p ≤ 24 * 3600) :=
      propext (div_le_iff₀ (by norm_num))
  
    have h48 : ((now - p) / 3600 ≤ 48) = (now - p ≤ 48 * 3600) :=
      propext (div_le_iff₀ (by norm_num))
    simp only [h24, h48]

/-- The reputation lookup always lands in [0.5, 2]. -/
theorem reputation_bounds (src : Str) :
    1 / 2 ≤ get_source_reputation_score src
      ∧ get_source_reputation_score src ≤ 2 := by
  unfold get_source_reputation_score sourceReputationTable
  simp only [repLookup]
  split_ifs <;> norm_num

/-- Reading (`getD`) through `map` at an in-range position. -/
theorem getD_map_lt (f : Article → Article) (l : List Article) (i : ℕ)
    (hi : i < l.length) : (l.map f).getD i default = f (l.getD i default) := by
  rw [List.getD_eq_getElem?_getD, List.getElem?_map, List.getElem?_eq_getElem hi,
    List.getD_eq_getElem?_getD, List.getElem?_eq_getElem hi]
  rfl

/-- C5: for every article surviving the exclusion and recency filters, the
stored relevance score equals
`(title_score*3 + description_score*1 + reputation_score) * recency_multiplier`,
where the title/description scores count the distinct configured
include-keywords matched as case-insensitive whole words, the reputation
score comes from the fixed source-substring table (values in [0.5, 2],
default 0.5 for unmatched sources), and the multiplier is the full configured
weight within 24 hours, `1 + (weight-1)*0.5` within 24–48 hours, and 1 for
older or undated articles. -/
theorem relevance_score_formula (cfg : FilterCfg) (now : ℚ)
    (arts : List Article)
    (hnd : (cfg.include_keywords.map pyLower).Nodup)
    (i : ℕ) (hi : i < arts.length)
    (hsurv : survivesPreScore cfg now (arts.getD i default) = true) :
    (((filter_and_rank cfg now arts).2).getD i default).relevance_score
      = ((((cfg.include_keywords.map pyLower).dedup.filter fun kw =>
            wholeWordSearch kw
              (pyLower (arts.getD i default).title)).length : ℚ) * 3
          + (((cfg.include_keywords.map pyLower).dedup.filter fun kw =>
              wholeWordSearch kw
                (pyLower ((arts.getD i default).description.getD []))).length
              : ℚ) * 1
          + get_source_reputation_score (arts.getD i default).source)
        * (match (arts.getD i default).published_at with
           | none => 1
           | some p =>
             if now - p ≤ 24 * 3600 then cfg.recency_weight
             else if now - p ≤ 48 * 3600 then
               1 + (cfg.recency_weight - 1) * (1 / 2)
             else 1)
      ∧ 1 / 2 ≤ get_source_reputation_score (arts.getD i default).source
      ∧ get_source_reputation_score (arts.getD i default).source ≤ 2 := by
  have hrep := reputation_bounds (arts.getD i default).source
  refine ⟨?_, hrep.1, hrep.2⟩
  rw [filter_and_rank_snd cfg now arts, getD_map_lt _ _ _ hi, if_pos hsurv,
    List.dedup_eq_self.mpr hnd]
  show calculate_relevance_score cfg now (arts.getD i default) = _
  unfold calculate_relevance_score
  rw [calculate_keyword_score_eq, calculate_keyword_score_eq,
    get_recency_boost_eq]

/-- C5 witness: Scenario 3's article under `sampleCfg` (keywords "robot" and
"AI", weight 2): the stored score obeys the formula and the reputation
bounds. -/
theorem relevance_score_formula_witness :
    (((filter_and_rank sampleCfg 0 [sampleArticle]).2).getD 0
        default).relevance_score
      = ((((sampleCfg.include_keywords.map pyLower).dedup.filter fun kw =>
            wholeWordSearch kw
              (pyLower ([sampleArticle].getD 0 default).title)).length : ℚ) * 3
          + (((sampleCfg.include_keywords.map pyLower).dedup.filter fun kw =>
              wholeWordSearch kw
                (pyLower (([sampleArticle].getD 0
                  default).description.getD []))).length : ℚ) * 1
          + get_source_reputation_score ([sampleArticle].getD 0 default).source)
        * (match ([sampleArticle].getD 0 default).published_at with
           | none => 1
           | some p =>
             if (0:ℚ) - p ≤ 24 * 3600 then sampleCfg.recency_weight
             else if (0:ℚ) - p ≤ 48 * 3600 then
               1 + (sampleCfg.recency_weight - 1) * (1 / 2)
             else 1)
      ∧ 1 / 2 ≤ get_source_reputation_score ([sampleArticle].getD 0
          default).source
      ∧ get_source_reputation_score ([sampleArticle].getD 0 default).source
          ≤ 2 :=
  relevance_score_formula sampleCfg 0 [sampleArticle] (by decide) 0 (by simp)
    (by decide)

/-- Inserting into a list permutes consing onto it. -/
theorem insertDesc_perm (a : Article) (l : List Article) :
    (insertDesc a l).Perm (a :: l) := by
  induction l with
  | nil => exact List.Perm.refl _
  | cons b l ih =>
    simp only [insertDesc]
    split_ifs with hab
    · exact (ih.cons b).trans (List.Perm.swap a b l)
    · exact List.Perm.refl _

/-- The insertion fold permutes appending the input onto the accumulator. -/
theorem foldl_insert_perm (l : List Article) :
    ∀ acc, (l.foldl (fun acc a => insertDesc a acc) acc).Perm (acc ++ l) := by
  induction l with
  | nil => intro acc; simp
  | cons a l ih =>
    intro acc
    simp only [List.foldl_cons]
    exact (ih _).trans
      (((insertDesc_perm a acc).append_right l).trans List.perm_middle.symm)

/-- The stable sort is a permutation of its input. -/
theorem sortDesc_perm (l : List Article) : (sortDesc l).Perm l := by
  simpa [sortDesc] using foldl_insert_perm l []

/-- Insertion preserves descending sortedness. -/
theorem insertDesc_sorted (a : Article) (l : List Article)
    (h : ScoreSortedDesc l) : ScoreSortedDesc (insertDesc a l) := by
  induction l with
  | nil => simp [insertDesc, ScoreSortedDesc]
  | cons b l ih =>
    have hb := (List.pairwise_cons.mp h).1
    have hl : ScoreSortedDesc l := (List.pairwise_cons.mp h).2
    simp only [insertDesc]
    split_ifs with hab
    · refine List.pairwise_cons.mpr ⟨?_, ih hl⟩
      intro x hx
      rcases List.mem_cons.mp ((insertDesc_perm a l).mem_iff.mp hx) with rfl | hx'
      · exact hab
      · exact hb x hx'
    · refine List.pairwise_cons.mpr ⟨?_, h⟩
      intro x hx
      rcases List.mem_cons.mp hx with rfl | hx'
      · exact le_of_lt (not_le.mp hab)
      · exact le_trans (hb x hx') (le_of_lt (not_le.mp hab))

/-- The insertion fold preserves descending sortedness. -/
theorem foldl_insert_sorted (l : List Article) :
    ∀ acc, ScoreSortedDesc acc →
      ScoreSortedDesc (l.foldl (fun acc a => insertDesc a acc) acc) := by
  induction l with
  | nil => intro acc h; exact h
  | cons a l ih =>
    intro acc h
    simp only [List.foldl_cons]
    exact ih _ (insertDesc_sorted a acc h)

/-- The stable sort is sorted, descending by score. -/
theorem sortDesc_sorted (l : List Article) : ScoreSortedDesc (sortDesc l) :=
  foldl_insert_sorted l [] List.Pairwise.nil

/-- Stability at the insertion step: inserting into a sorted list puts the
new element after every earlier element of its score class. -/
theorem filter_insertDesc (a : Article) (s : ℚ) (l : List Article)
    (hl : ScoreSortedDesc l) :
    (insertDesc a l).filter (fun b => decide (b.relevance_score = s))
      = l.filter (fun b => decide (b.relevance_score = s))
        ++ (if a.relevance_score = s then [a] else []) := by
  induction l with
  | nil => by_cases ha : a.relevance_score = s <;> simp [insertDesc, ha]
  | cons b l ih =>
    have hball := (List.pairwise_cons.mp hl).1
    have hl' : ScoreSortedDesc l := (List.pairwise_cons.mp hl).2
    by_cases hab : a.relevance_score ≤ b.relevance_score
    · rw [show insertDesc a (b :: l) = b :: insertDesc a l from by
        simp [insertDesc, hab]]
      simp only [List.filter_cons]
      rw [ih hl']
      by_cases hb : b.relevance_score = s
      · simp [hb]
      · simp [hb]
    · rw [show insertDesc a (b :: l) = a :: b :: l from by
        simp [insertDesc, hab]]
      have hba : b.relevance_score < a.relevance_score := not_le.mp hab
      by_cases ha : a.relevance_score = s
      · have hnone : (b :: l).filter (fun x => decide (x.relevance_score = s))
            = [] := by
          refine List.filter_eq_nil_iff.mpr fun x hx => ?_
          simp only [decide_eq_true_eq]
          intro hxs
          have hxb : x.relevance_score ≤ b.relevance_score := by
            rcases List.mem_cons.mp hx with rfl | hx'
            · exact le_refl _
            · exact hball x hx'
          rw [hxs, ← ha] at hxb
          exact absurd hxb (not_le.mpr hba)
        simp [List.filter_cons, ha, hnone]
      · simp [List.filter_cons, ha]

/-- Stability through the fold: score classes are accumulated in input
order. -/
theorem filter_foldl_insert (s : ℚ) (l : List Article) :
    ∀ acc, ScoreSortedDesc acc →
      (l.foldl (fun acc a => insertDesc a acc) acc).filter
          (fun b => decide (b.relevance_score = s))
        = acc.filter (fun b => decide (b.relevance_score = s))
          ++ l.filter (fun b => decide (b.relevance_score = s)) := by
  induction l with
  | nil => intro acc _; simp
  | cons a l ih =>
    intro acc hacc
    simp only [List.foldl_cons]
    rw [ih _ (insertDesc_sorted a acc hacc), filter_insertDesc a s acc hacc]
    by_cases ha : a.relevance_score = s <;>
      simp [List.filter_cons, ha, List.append_assoc]

/-- Stability of the stable sort: each score class keeps its input order. -/
theorem filter_sortDesc (s : ℚ) (l : List Article) :
    (sortDesc l).filter (fun b => decide (b.relevance_score = s))
      = l.filter (fun b => decide (b.relevance_score = s)) := by
  simpa [sortDesc] using filter_foldl_insert s l [] List.Pairwise.nil

/-- Keyword counts are non-negative. -/
theorem calculate_keyword_score_nonneg (kws : List Str) (text : Str) :
    0 ≤ calculate_keyword_score kws text := by
  unfold calculate_keyword_score
  split_ifs
  · exact le_refl 0
  · exact Nat.cast_nonneg _

/-- The recency boost is non-negative for a non-negative configured weight. -/
theorem get_recency_boost_nonneg (w now : ℚ) (a : Article) (hw : 0 ≤ w) :
    0 ≤ get_recency_boost w now a := by
  rw [get_recency_boost_eq]
  cases a.published_at with
  | none => norm_num
  | some p =>
    show (0:ℚ) ≤ if now - p ≤ 24 * 3600 then w
        else if now - p ≤ 48 * 3600 then 1 + (w - 1) * (1 / 2) else 1
    split_ifs
    · exact hw
    · linarith
    · norm_num

/-- Every computed relevance score is non-negative when the configured
recency weight is. -/
theorem calculate_relevance_score_nonneg (cfg : FilterCfg) (now : ℚ)
    (a : Article) (hw : 0 ≤ cfg.recency_weight) :
    0 ≤ calculate_relevance_score cfg now a := by
  unfold calculate_relevance_score
  have h1 := calculate_keyword_score_nonneg (cfg.include_keywords.map pyLower)
    a.title
  have h2 := calculate_keyword_score_nonneg (cfg.include_keywords.map pyLower)
    (a.description.getD [])
  have h3 := (reputation_bounds a.source).1
  exact mul_nonneg (by linarith) (get_recency_boost_nonneg _ _ _ hw)

/-- An empty exclusion stage empties the minimum-score stage. -/
theorem stageScored_nil_of_filtered (cfg : FilterCfg) (now : ℚ)
    (arts : List Article) (h : stageFiltered cfg arts = []) :
    stageScored cfg now arts = [] := by
  unfold stageScored stageRecent
  rw [h]
  rfl

/-- An empty recency stage empties the minimum-score stage. -/
theorem stageScored_nil_of_recent (cfg : FilterCfg) (now : ℚ)
    (arts : List Article) (h : stageRecent cfg now arts = []) :
    stageScored cfg now arts = [] := by
  unfold stageScored
  rw [h]
  rfl

/-- The ranking conclusions all hold for an empty output when the
minimum-score stage is empty. -/
theorem ranked_empty_case (cfg : FilterCfg) (now : ℚ) (arts : List Article)
    (hsc : stageScored cfg now arts = []) :
    ScoreSortedDesc ([] : List Article) ∧
    ([] : List Article).length ≤ cfg.max_articles ∧
    ([] : List Article).length
      = min cfg.max_articles (stageScored cfg now arts).length ∧
    (∃ rest, (([] : List Article) ++ rest).Perm (stageScored cfg now arts) ∧
      ∀ a ∈ rest, ∀ b ∈ ([] : List Article),
        a.relevance_score ≤ b.relevance_score) ∧
    (∀ s : ℚ, ∃ suffix,
      (stageScored cfg now arts).filter (fun b => decide (b.relevance_score = s))
        = ([] : List Article).filter (fun b => decide (b.relevance_score = s))
          ++ suffix) :=
  ⟨List.Pairwise.nil, by simp, by simp [hsc],
    ⟨[], by simp [hsc], by simp⟩,
    fun s => ⟨(stageScored cfg now arts).filter
      (fun b => decide (b.relevance_score = s)), by simp⟩⟩

/-- C6: with a non-negative configured recency weight, every computed final
score is non-negative, and any list the filter returns is sorted
non-increasingly by score, has at most `max_articles` elements — exactly
`min max_articles |survivors|` of them, so together with the rest of only
lower-or-equal-scored articles it is precisely the `max_articles`
highest-scored articles among those meeting the minimum-score threshold —
and keeps the original relative order inside every score class (stable
sort). -/
theorem filter_and_rank_ranked (cfg : FilterCfg) (now : ℚ)
    (arts : List Article) (hw : 0 ≤ cfg.recency_weight) :
    (∀ a : Article, 0 ≤ calculate_relevance_score cfg now a) ∧
    ∀ out, (filter_and_rank cfg now arts).1 = Except.ok out →
      ScoreSortedDesc out ∧
      out.length ≤ cfg.max_articles ∧
      out.length = min cfg.max_articles (stageScored cfg now arts).length ∧
      (∃ rest, (out ++ rest).Perm (stageScored cfg now arts) ∧
        ∀ a ∈ rest, ∀ b ∈ out, a.relevance_score ≤ b.relevance_score) ∧
      (∀ s : ℚ, ∃ suffix,
        (stageScored cfg now arts).filter
            (fun b => decide (b.relevance_score = s))
          = out.filter (fun b => decide (b.relevance_score = s)) ++ suffix) := by
  refine ⟨fun a => calculate_relevance_score_nonneg cfg now a hw, ?_⟩
  intro out hout
  simp only [filter_and_rank] at hout
  by_cases h1 : (stageFiltered cfg arts).isEmpty
  · rw [if_pos h1] at hout
    obtain rfl : ([] : List Article) = out := by simpa using hout
    exact ranked_empty_case cfg now arts
      (stageScored_nil_of_filtered cfg now arts (List.isEmpty_iff.mp h1))
  · rw [if_neg h1] at hout
    by_cases h2 : (stageRecent cfg now arts).isEmpty
    · rw [if_pos h2] at hout
      obtain rfl : ([] : List Article) = out := by simpa using hout
      exact ranked_empty_case cfg now arts
        (stageScored_nil_of_recent cfg now arts (List.isEmpty_iff.mp h2))
    · rw [if_neg h2] at hout
      by_cases h3 : (stageScored cfg now arts).isEmpty
      · rw [if_pos h3] at hout
        obtain rfl : ([] : List Article) = out := by simpa using hout
        exact ranked_empty_case cfg now arts (List.isEmpty_iff.mp h3)
      · rw [if_neg h3] at hout
        by_cases h4 : ((sortDesc (stageScored cfg now arts)).take
            cfg.max_articles).isEmpty
        · rw [if_pos h4] at hout
          exact absurd hout (by simp)
        · rw [if_neg h4] at hout
          obtain rfl :
              (sortDesc (stageScored cfg now arts)).take cfg.max_articles
                = out := by
            simpa using hout
          refine ⟨?_, ?_, ?_, ?_, ?_⟩
          · exact List.Pairwise.sublist (List.take_sublist _ _)
              (sortDesc_sorted (stageScored cfg now arts))
          · exact List.length_take_le _ _
          · rw [List.length_take,
              (sortDesc_perm (stageScored cfg now arts)).length_eq]
          · refine ⟨(sortDesc (stageScored cfg now arts)).drop
              cfg.max_articles, ?_, ?_⟩
            · rw [List.take_append_drop]
              exact sortDesc_perm (stageScored cfg now arts)
            · intro a ha b hb
              have hps : ScoreSortedDesc
                  ((sortDesc (stageScored cfg now arts)).take cfg.max_articles
                    ++ (sortDesc (stageScored cfg now arts)).drop
                      cfg.max_articles) := by
                rw [List.take_append_drop]
                exact sortDesc_sorted (stageScored cfg now arts)
              exact (List.pairwise_append.mp hps).2.2 b hb a ha
          · intro s
            refine ⟨((sortDesc (stageScored cfg now arts)).drop
              cfg.max_articles).filter
                (fun b => decide (b.relevance_score = s)), ?_⟩
            calc (stageScored cfg now arts).filter
                  (fun b => decide (b.relevance_score = s))
                = (sortDesc (stageScored cfg now arts)).filter
                    (fun b => decide (b.relevance_score = s)) :=
                  (filter_sortDesc s (stageScored cfg now arts)).symm
              _ = ((sortDesc (stageScored cfg now arts)).take cfg.max_articles
                    ++ (sortDesc (stageScored cfg now arts)).drop
                      cfg.max_articles).filter
                    (fun b => decide (b.relevance_score = s)) := by
                  rw [List.take_append_drop]
              _ = _ := List.filter_append _ _

/-- C6 witness: the hypothesis holds at `sampleCfg` (weight 2) and the
conclusions follow for the one-article batch. -/
theorem filter_and_rank_ranked_witness :
    (0:ℚ) ≤ sampleCfg.recency_weight ∧
    ((∀ a : Article, 0 ≤ calculate_relevance_score sampleCfg 0 a) ∧
    ∀ out, (filter_and_rank sampleCfg 0 [sampleArticle]).1 = Except.ok out →
      ScoreSortedDesc out ∧
      out.length ≤ sampleCfg.max_articles ∧
      out.length
        = min sampleCfg.max_articles
            (stageScored sampleCfg 0 [sampleArticle]).length ∧
      (∃ rest, (out ++ rest).Perm (stageScored sampleCfg 0 [sampleArticle]) ∧
        ∀ a ∈ rest, ∀ b ∈ out, a.relevance_score ≤ b.relevance_score) ∧
      (∀ s : ℚ, ∃ suffix,
        (stageScored sampleCfg 0 [sampleArticle]).filter
            (fun b => decide (b.relevance_score = s))
          = out.filter (fun b => decide (b.relevance_score = s)) ++ suffix)) :=
  ⟨by norm_num [sampleCfg],
    filter_and_rank_ranked sampleCfg 0 [sampleArticle]
      (by norm_num [sampleCfg])⟩

/-- C9: with `max_articles = 0` and one article passing every stage, the
embedded `filter_and_rank` reaches the closing log statement with an empty
truncated list and fails (`top_articles[0]` raises IndexError): the operation
does not return normally, contradicting the spec's no-fatal-errors contract.
The article scores `(0*3 + 0*1 + 2) * 1 = 2 ≥ 0`, so the scored stage is
non-empty and the error branch is reached. -/
theorem filter_and_rank_zero_cap_error :
    (filter_and_rank zeroCapCfg 0 [zeroCapArticle]).1 = Except.error () := by
  have hscore : calculate_relevance_score zeroCapCfg 0 zeroCapArticle = 2 := by
    unfold calculate_relevance_score
    have ht : calculate_keyword_score
        (zeroCapCfg.include_keywords.map pyLower) zeroCapArticle.title = 0 := by
      simp [calculate_keyword_score, zeroCapCfg, zeroCapArticle]
    have hd : calculate_keyword_score
        (zeroCapCfg.include_keywords.map pyLower)
        (zeroCapArticle.description.getD []) = 0 := by
      simp [calculate_keyword_score, zeroCapCfg, zeroCapArticle]
    have hsub : isSubstrOf "mit".toList (pyLower zeroCapArticle.source)
        = true := by decide
    simp only [String.toList] at hsub
    have hr : get_source_reputation_score zeroCapArticle.source = 2 := by
      simp [get_source_reputation_score, sourceReputationTable, repLookup, hsub]
    have hb : get_recency_boost zeroCapCfg.recency_weight 0 zeroCapArticle
        = 1 := by
      simp [get_recency_boost, zeroCapArticle]
    rw [ht, hd, hr, hb]
    norm_num
  have hF : stageFiltered zeroCapCfg [zeroCapArticle] = [zeroCapArticle] := by
    simp [stageFiltered, should_exclude, zeroCapCfg]
  have hsurv : surviveRecency zeroCapCfg.max_age_days 0 zeroCapArticle
      = true := by decide
  have hR : stageRecent zeroCapCfg 0 [zeroCapArticle] = [zeroCapArticle] := by
    rw [stageRecent, hF]
    simp [hsurv]
  have hup : (updateScore zeroCapCfg 0 zeroCapArticle).relevance_score = 2 := by
    simp [updateScore, hscore]
  have hcond : decide (zeroCapCfg.min_relevance_score
      ≤ (updateScore zeroCapCfg 0 zeroCapArticle).relevance_score) = true := by
    simp only [hup, decide_eq_true_eq]
    norm_num [zeroCapCfg]
  have hS : stageScored zeroCapCfg 0 [zeroCapArticle]
      = [updateScore zeroCapCfg 0 zeroCapArticle] := by
    rw [stageScored, hR]
    simp [hcond]
  have hmax : zeroCapCfg.max_articles = 0 := rfl
  simp [filter_and_rank, hF, hR, hS, hmax]
